import Mathlib

/-!
Verification development for the EPG acquisition firmware
(`src/firmware/src/adc.c`, `src/firmware/src/bluetooth.c`, `src/firmware/src/main.c`).

The definitions below are shallow embeddings of the C code: machine integers
become `Nat`/`Int` with explicit wrapping where the C code wraps, buffers become
total functions `ℕ → ℤ` together with an explicit length, and the interrupt /
deferred-task interplay becomes explicit state passing.
-/

namespace EPG

/-! ## Constants (adc.c lines 21-28, 46; bluetooth.c line 23) -/

/-- adc.c: `#define ADC_SAMPLE_RATE_HZ 3000` -/
def ADC_SAMPLE_RATE_HZ : ℕ := 3000

/-- adc.c: `#define SAADC_BUFFER_SIZE 3000` (samples per block) -/
def SAADC_BUFFER_SIZE : ℕ := 3000

/-- adc.c: `#define SAMPLES_PER_NOTIFY 40` (chunk size in samples) -/
def SAMPLES_PER_NOTIFY : ℕ := 40

/-- adc.c: `#define SAADC_INTERVAL_US (1000000 / ADC_SAMPLE_RATE_HZ)` —
C integer division, hence truncating. -/
def SAADC_INTERVAL_US : ℕ := 1000000 / ADC_SAMPLE_RATE_HZ

/-! ## Little-endian sample encoding (adc.c lines 74-78)

The work handler packs each `int16_t` sample as
`payload[2i] = (uint8_t)(sample & 0xFF)` and
`payload[2i+1] = (uint8_t)((sample >> 8) & 0xFF)`.
On two's-complement hardware `s & 0xFF` is the Euclidean remainder of `s`
mod 256 and `s >> 8` is the arithmetic shift, i.e. floor division by 256,
which for the positive divisor 256 is `Int.ediv`. -/

/-- The two bytes the work handler stores for one staged sample
(low byte first: little-endian). -/
def encodeLE (s : ℤ) : List ℕ :=
  [(Int.emod s 256).toNat, (Int.emod (Int.ediv s 256) 256).toNat]

/-- Bytes produced for samples `buf[idx], …, buf[idx+c-1]`, in order:
the body of the inner `for` loop of `saadc_ble_work_handler`. -/
def chunkPayload (buf : ℕ → ℤ) (idx c : ℕ) : List ℕ :=
  ((List.range c).map fun i => encodeLE (buf (idx + i))).flatten

/-- The chunking loop of `saadc_ble_work_handler` (adc.c lines 64-87),
started at sample index `idx`: while `idx < len` it packs
`min (len - idx) SAMPLES_PER_NOTIFY` samples into one payload, emits it, and
advances `idx` by that count.  The result is the ordered list of emitted
chunk payloads (each a byte list).  The `fuel` argument only bounds the number
of loop iterations so that the recursion is structural; every lemma below
assumes `len - idx ≤ fuel`, which holds for the actual entry point
(`fuel = len`, `idx = 0`) because each iteration advances `idx` by at least
one sample. -/
def saadc_ble_work_loop (buf : ℕ → ℤ) (len : ℕ) : ℕ → ℕ → List (List ℕ)
  | _, 0 => []
  | idx, fuel + 1 =>
    if idx < len then
      chunkPayload buf idx (min (len - idx) SAMPLES_PER_NOTIFY) ::
        saadc_ble_work_loop buf len (idx + min (len - idx) SAMPLES_PER_NOTIFY) fuel
    else []

/-- One run of the deferred work handler over the staged block
`g_ble_buf[0 .. g_ble_len)`. -/
def saadc_ble_work_handler (buf : ℕ → ℤ) (len : ℕ) : List (List ℕ) :=
  saadc_ble_work_loop buf len 0 len

example : saadc_ble_work_handler (fun i => (i : ℤ)) 3 =
    [[0, 0, 1, 0, 2, 0]] := by decide

example : saadc_ble_work_handler (fun _ => (-1 : ℤ)) 2 =
    [[255, 255, 255, 255]] := by decide

example : (saadc_ble_work_handler (fun i => (i : ℤ)) 85).length = 3 := by decide

example : (saadc_ble_work_handler (fun i => (i : ℤ)) 85).map List.length =
    [80, 80, 10] := by decide

/-! ## Payload algebra -/

theorem encodeLE_length (s : ℤ) : (encodeLE s).length = 2 := rfl

theorem chunkPayload_zero (buf : ℕ → ℤ) (idx : ℕ) : chunkPayload buf idx 0 = [] := rfl

theorem chunkPayload_succ (buf : ℕ → ℤ) (idx c : ℕ) :
    chunkPayload buf idx (c + 1) = chunkPayload buf idx c ++ encodeLE (buf (idx + c)) := by
  unfold chunkPayload
  rw [List.range_succ, List.map_append, List.flatten_append]
  simp

theorem chunkPayload_length (buf : ℕ → ℤ) (idx c : ℕ) :
    (chunkPayload buf idx c).length = 2 * c := by
  induction c with
  | zero => rfl
  | succ n ih =>
    rw [chunkPayload_succ, List.length_append, ih, encodeLE_length]
    omega

theorem chunkPayload_add (buf : ℕ → ℤ) (idx a b : ℕ) :
    chunkPayload buf idx (a + b) =
      chunkPayload buf idx a ++ chunkPayload buf (idx + a) b := by
  induction b with
  | zero => simp [chunkPayload_zero]
  | succ n ih =>
    have h1 : a + (n + 1) = (a + n) + 1 := by omega
    rw [h1, chunkPayload_succ, ih, chunkPayload_succ, List.append_assoc,
      Nat.add_assoc]

/-! ## Chunking loop lemmas (claim C1) -/

theorem work_loop_length (buf : ℕ → ℤ) (len : ℕ) :
    ∀ fuel idx, len - idx ≤ fuel →
      (saadc_ble_work_loop buf len idx fuel).length = (len - idx + 39) / 40 := by
  intro fuel
  induction fuel with
  | zero =>
    intro idx h
    simp only [saadc_ble_work_loop, List.length_nil]
    omega
  | succ n ih =>
    intro idx h
    simp only [saadc_ble_work_loop, SAMPLES_PER_NOTIFY]
    by_cases hlt : idx < len
    · rw [if_pos hlt, List.length_cons, ih _ (by omega)]
      omega
    · rw [if_neg hlt]
      simp only [List.length_nil]
      omega

theorem work_loop_flatten (buf : ℕ → ℤ) (len : ℕ) :
    ∀ fuel idx, len - idx ≤ fuel →
      (saadc_ble_work_loop buf len idx fuel).flatten = chunkPayload buf idx (len - idx) := by
  intro fuel
  induction fuel with
  | zero =>
    intro idx h
    have h0 : len - idx = 0 := by omega
    simp [saadc_ble_work_loop, h0, chunkPayload_zero]
  | succ n ih =>
    intro idx h
    simp only [saadc_ble_work_loop, SAMPLES_PER_NOTIFY]
    by_cases hlt : idx < len
    · rw [if_pos hlt, List.flatten_cons, ih _ (by omega)]
      have hsplit : len - idx = min (len - idx) 40 + (len - (idx + min (len - idx) 40)) := by
        omega
      conv_rhs => rw [hsplit, chunkPayload_add]
    · rw [if_neg hlt]
      have h0 : len - idx = 0 := by omega
      simp [h0, chunkPayload_zero]

theorem work_loop_getD_length (buf : ℕ → ℤ) (len : ℕ) :
    ∀ fuel idx k, len - idx ≤ fuel → k < (len - idx + 39) / 40 →
      ((saadc_ble_work_loop buf len idx fuel).getD k []).length =
        2 * min (len - idx - 40 * k) 40 := by
  intro fuel
  induction fuel with
  | zero =>
    intro idx k h hk
    omega
  | succ n ih =>
    intro idx k h hk
    have hlt : idx < len := by omega
    simp only [saadc_ble_work_loop, SAMPLES_PER_NOTIFY, if_pos hlt]
    cases k with
    | zero =>
      rw [List.getD_cons_zero, chunkPayload_length]
      omega
    | succ m =>
      rw [List.getD_cons_succ, ih _ m (by omega) (by omega)]
      omega

theorem work_loop_mem (buf : ℕ → ℤ) (len : ℕ) :
    ∀ fuel idx, len - idx ≤ fuel →
      ∀ p ∈ saadc_ble_work_loop buf len idx fuel, 0 < p.length ∧ p.length ≤ 80 := by
  intro fuel
  induction fuel with
  | zero =>
    intro idx h p hp
    simp [saadc_ble_work_loop] at hp
  | succ n ih =>
    intro idx h p hp
    simp only [saadc_ble_work_loop, SAMPLES_PER_NOTIFY] at hp
    by_cases hlt : idx < len
    · rw [if_pos hlt, List.mem_cons] at hp
      rcases hp with hp | hp
      · rw [hp, chunkPayload_length]
        omega
      · exact ih _ (by omega) p hp
    · rw [if_neg hlt] at hp
      simp at hp

/-- Conjunction of the chunking-correctness facts of claim C1 for one run of the
transport over a staged block of `len` samples read from `buf`:
the handler emits `⌈len/40⌉ = (len+39)/40` chunks; chunk `k` carries
`min (len - 40k) 40` samples (2 bytes each); every chunk but the last carries
`SAMPLES_PER_NOTIFY = 40` samples; the last carries `len mod 40` samples
(40 when `len` is a positive multiple of 40); no chunk is empty and every
payload is at most `2 * 40 = 80` bytes; and the concatenation of the payloads
is exactly the little-endian encoding of the `len` staged samples. -/
def C1Chunking (buf : ℕ → ℤ) (len : ℕ) : Prop :=
  (saadc_ble_work_handler buf len).length = (len + 39) / 40 ∧
  (∀ k, k < (len + 39) / 40 →
    ((saadc_ble_work_handler buf len).getD k []).length =
      2 * min (len - 40 * k) SAMPLES_PER_NOTIFY) ∧
  (∀ k, k + 1 < (len + 39) / 40 →
    ((saadc_ble_work_handler buf len).getD k []).length = 2 * SAMPLES_PER_NOTIFY) ∧
  (0 < len → len % 40 = 0 →
    ((saadc_ble_work_handler buf len).getD ((len + 39) / 40 - 1) []).length =
      2 * SAMPLES_PER_NOTIFY) ∧
  (len % 40 ≠ 0 →
    ((saadc_ble_work_handler buf len).getD ((len + 39) / 40 - 1) []).length =
      2 * (len % 40)) ∧
  (∀ p ∈ saadc_ble_work_handler buf len,
    0 < p.length ∧ p.length ≤ 2 * SAMPLES_PER_NOTIFY) ∧
  (saadc_ble_work_handler buf len).flatten =
    ((List.range len).map fun i => encodeLE (buf i)).flatten

/-- C1: for every staged block of length `L ≤ 3000` and chunk size 40, one run
of the deferred work handler emits exactly `⌈L/40⌉` chunks in order, each
little-endian 2-byte encoded; all chunks but the last carry 40 samples, the
last carries `L mod 40` samples (40 if `L` is a positive multiple of 40), no
zero-length chunk is emitted, every payload is at most 80 bytes, and the
concatenated payloads reproduce the `L` staged samples byte-for-byte. -/
theorem C1_chunking (buf : ℕ → ℤ) (len : ℕ) (_hlen : len ≤ SAADC_BUFFER_SIZE) :
    C1Chunking buf len := by
  have hfuel : len - 0 ≤ len := by omega
  have hlq := work_loop_getD_length buf len len 0
  have hln := work_loop_length buf len len 0 hfuel
  refine ⟨?_, ?_, ?_, ?_, ?_, ?_, ?_⟩
  · simpa using hln
  · intro k hk
    have := hlq k hfuel (by simpa using hk)
    simpa [SAMPLES_PER_NOTIFY] using this
  · intro k hk
    have := hlq k hfuel (by simp; omega)
    rw [saadc_ble_work_handler, this]
    simp only [SAMPLES_PER_NOTIFY]
    omega
  · intro hpos hmod
    have := hlq ((len + 39) / 40 - 1) hfuel (by simp; omega)
    rw [saadc_ble_work_handler, this]
    simp only [SAMPLES_PER_NOTIFY]
    omega
  · intro hmod
    have := hlq ((len + 39) / 40 - 1) hfuel (by simp; omega)
    rw [saadc_ble_work_handler, this]
    omega
  · intro p hp
    have := work_loop_mem buf len len 0 hfuel p hp
    simpa [SAMPLES_PER_NOTIFY] using this
  · have := work_loop_flatten buf len len 0 hfuel
    rw [saadc_ble_work_handler, this]
    simp [chunkPayload]

/-- Witness for C1 at the concrete block `buf i = i - 3`, `L = 85`
(three chunks: 40, 40, 5 samples). -/
theorem C1_chunking_witness :
    85 ≤ SAADC_BUFFER_SIZE ∧ C1Chunking (fun i => (i : ℤ) - 3) 85 :=
  ⟨by decide, C1_chunking (fun i => (i : ℤ) - 3) 85 (by decide)⟩

/-! ## Staging slot (adc.c lines 52-53 and 180-190)

The DONE branch of `saadc_event_handler` ends with

    if (n > SAADC_BUFFER_SIZE) { n = SAADC_BUFFER_SIZE; }
    memcpy(g_ble_buf, buf, n * sizeof(int16_t));
    g_ble_len = n;
    k_work_submit(&saadc_ble_work);

`g_ble_buf` is a 3000-sample array and `g_ble_len` its logical length.  The
`memcpy` overwrites only the first `n` entries; entries at and above `n` keep
whatever a previous block left there, but the deferred task never reads them
because it only walks `g_ble_buf[0 .. g_ble_len)`. -/

/-- The staging slot: `g_ble_buf` (as a total function on indices) together
with `g_ble_len`. -/
structure BleSlot where
  buf : ℕ → ℤ
  len : ℕ

/-- Initial state of the static variables: zeroed buffer, `g_ble_len = 0`. -/
def initSlot : BleSlot := ⟨fun _ => 0, 0⟩

/-- The staging step of the DONE handler: clamp the incoming length to the
slot capacity, copy that many samples of the completed block `block` into the
slot, set the length, and submit the deferred work item (the returned `Bool`
records the `k_work_submit` call). -/
def stage (s : BleSlot) (block : ℕ → ℤ) (n : ℕ) : BleSlot × Bool :=
  (⟨fun i => if i < (if SAADC_BUFFER_SIZE < n then SAADC_BUFFER_SIZE else n) then block i
             else s.buf i,
    if SAADC_BUFFER_SIZE < n then SAADC_BUFFER_SIZE else n⟩, true)

/-- The snapshot the deferred task observes: the first `g_ble_len` staged
samples, in order. -/
def slotView (s : BleSlot) : List ℤ := (List.range s.len).map s.buf

/-- A sequence of DONE-handler staging steps (each element is a completed
block together with its reported size). -/
def runStages (s : BleSlot) (ops : List ((ℕ → ℤ) × ℕ)) : BleSlot :=
  ops.foldl (fun t op => (stage t op.1 op.2).1) s

theorem stage_len (s : BleSlot) (block : ℕ → ℤ) (n : ℕ) :
    (stage s block n).1.len = min n SAADC_BUFFER_SIZE := by
  simp only [stage]
  split <;> omega

theorem stage_len_le (s : BleSlot) (block : ℕ → ℤ) (n : ℕ) :
    (stage s block n).1.len ≤ SAADC_BUFFER_SIZE := by
  rw [stage_len]
  omega

theorem stage_view (s : BleSlot) (block : ℕ → ℤ) (n : ℕ) :
    slotView (stage s block n).1 = (List.range (min n SAADC_BUFFER_SIZE)).map block := by
  have hl := stage_len s block n
  simp only [slotView, hl]
  apply List.map_congr_left
  intro i hi
  rw [List.mem_range] at hi
  simp only [stage]
  split
  · rw [if_pos (by omega)]
  · rw [if_pos (by omega)]

theorem stage_untouched (s : BleSlot) (block : ℕ → ℤ) (n : ℕ) (i : ℕ)
    (hi : min n SAADC_BUFFER_SIZE ≤ i) :
    (stage s block n).1.buf i = s.buf i := by
  simp only [stage]
  split
  · rw [if_neg (by omega)]
  · rw [if_neg (by omega)]

theorem stage_submits (s : BleSlot) (block : ℕ → ℤ) (n : ℕ) :
    (stage s block n).2 = true := rfl

/-- C2: if the DONE handler stages block `b1` (length `L1`) and then block
`b2` (length `L2`) before the deferred task drains, the task's snapshot
afterwards has length `min L2 3000` and content equal to the first
`min L2 3000` samples of `b2` alone — last-write-wins, never a mix of `b1`
and `b2`; the second stage writes only the first `min L2 3000` slot entries
and submits the deferred work item. -/
theorem C2_last_write_wins (s : BleSlot) (b1 : ℕ → ℤ) (L1 : ℕ) (b2 : ℕ → ℤ) (L2 : ℕ) :
    (stage (stage s b1 L1).1 b2 L2).1.len = min L2 SAADC_BUFFER_SIZE ∧
    slotView (stage (stage s b1 L1).1 b2 L2).1 =
      (List.range (min L2 SAADC_BUFFER_SIZE)).map b2 ∧
    (∀ i, min L2 SAADC_BUFFER_SIZE ≤ i →
      (stage (stage s b1 L1).1 b2 L2).1.buf i = (stage s b1 L1).1.buf i) ∧
    (stage (stage s b1 L1).1 b2 L2).2 = true :=
  ⟨stage_len _ b2 L2, stage_view _ b2 L2,
    fun i hi => stage_untouched _ b2 L2 i hi, stage_submits _ b2 L2⟩

/-! ## Buffer accesses of the work handler (claim C9)

`saadc_ble_work_handler` reads `g_ble_buf[idx + i]` for `i < chunk_samples`
in each iteration.  `saadc_ble_work_reads_loop` is the same loop, recording
the index of every such read instead of the bytes produced. -/

/-- Indices of `g_ble_buf` read by the chunking loop started at `idx`
(same iteration structure and same fuel convention as
`saadc_ble_work_loop`). -/
def saadc_ble_work_reads_loop (len : ℕ) : ℕ → ℕ → List ℕ
  | _, 0 => []
  | idx, fuel + 1 =>
    if idx < len then
      ((List.range (min (len - idx) SAMPLES_PER_NOTIFY)).map fun i => idx + i) ++
        saadc_ble_work_reads_loop len (idx + min (len - idx) SAMPLES_PER_NOTIFY) fuel
    else []

/-- Indices of `g_ble_buf` read by one full run of the deferred work
handler over a staged length `len`. -/
def saadc_ble_work_reads (len : ℕ) : List ℕ :=
  saadc_ble_work_reads_loop len 0 len

example : saadc_ble_work_reads 5 = [0, 1, 2, 3, 4] := by decide

theorem work_reads_loop_lt (len : ℕ) :
    ∀ fuel idx, ∀ j ∈ saadc_ble_work_reads_loop len idx fuel, j < len := by
  intro fuel
  induction fuel with
  | zero =>
    intro idx j hj
    simp [saadc_ble_work_reads_loop] at hj
  | succ n ih =>
    intro idx j hj
    simp only [saadc_ble_work_reads_loop, SAMPLES_PER_NOTIFY] at hj
    by_cases hlt : idx < len
    · rw [if_pos hlt, List.mem_append] at hj
      rcases hj with hj | hj
      · simp only [List.mem_map, List.mem_range] at hj
        obtain ⟨i, hi, rfl⟩ := hj
        omega
      · exact ih _ j hj
    · rw [if_neg hlt] at hj
      simp at hj

theorem work_reads_lt (len : ℕ) : ∀ j ∈ saadc_ble_work_reads len, j < len :=
  work_reads_loop_lt len len 0

theorem runStages_len_le (ops : List ((ℕ → ℤ) × ℕ)) :
    ∀ s : BleSlot, s.len ≤ SAADC_BUFFER_SIZE →
      (runStages s ops).len ≤ SAADC_BUFFER_SIZE := by
  induction ops with
  | nil => intro s hs; exact hs
  | cons op rest ih =>
    intro s hs
    exact ih _ (stage_len_le s op.1 op.2)

/-- C9: after every DONE-handler execution the staging slot length is at most
the slot capacity `SAADC_BUFFER_SIZE = 3000` — for every sequence of stage
operations from the initial state, and in particular after one further stage
of any block — and every index `idx + i` the deferred work handler reads from
`g_ble_buf` lies strictly below 3000, so all its buffer accesses are within
bounds. -/
theorem C9_slot_bounds (ops : List ((ℕ → ℤ) × ℕ)) (b : ℕ → ℤ) (n : ℕ) :
    (runStages initSlot ops).len ≤ SAADC_BUFFER_SIZE ∧
    (stage (runStages initSlot ops) b n).1.len ≤ SAADC_BUFFER_SIZE ∧
    (∀ j ∈ saadc_ble_work_reads (stage (runStages initSlot ops) b n).1.len,
      j < SAADC_BUFFER_SIZE) ∧
    (∀ j ∈ saadc_ble_work_reads (runStages initSlot ops).len,
      j < SAADC_BUFFER_SIZE) := by
  have h0 : initSlot.len ≤ SAADC_BUFFER_SIZE := by
    simp [initSlot, SAADC_BUFFER_SIZE]
  have h1 := runStages_len_le ops initSlot h0
  have h2 := stage_len_le (runStages initSlot ops) b n
  refine ⟨h1, h2, ?_, ?_⟩
  · intro j hj
    exact lt_of_lt_of_le (work_reads_lt _ j hj) h2
  · intro j hj
    exact lt_of_lt_of_le (work_reads_lt _ j hj) h1

/-! ## Connection state and chunk transmission (bluetooth.c lines 201, 234, 261-274)

`ble_send_adc_chunk` is

    if (!ble_connected || !notify_enabled) { return; }
    int ret = bt_gatt_notify(...);
    if (ret < 0) { LOG_WRN(...); }

It returns `void`: no error can reach its caller; a failed `bt_gatt_notify`
is only logged.  We model it by the number of notifications it transmits. -/

/-- The two booleans the streaming path reads: `ble_connected` and
`notify_enabled`. -/
structure ConnState where
  ble_connected : Bool
  notify_enabled : Bool
deriving DecidableEq

/-- Number of notifications `ble_send_adc_chunk` transmits for one chunk:
zero unless connected and subscribed, else exactly one `bt_gatt_notify`
call.  The function itself returns `void`, so no error is ever surfaced to
the transport loop regardless of this count. -/
def ble_send_adc_chunk (cs : ConnState) (_payload : List ℕ) : ℕ :=
  if !cs.ble_connected || !cs.notify_enabled then 0 else 1

/-- The chunking loop of `saadc_ble_work_handler` together with the
`ble_send_adc_chunk` call it makes for each chunk.  `css k` is the connection
state at the time chunk `k` is sent (the booleans may be flipped by the
wireless stack between chunks); each emitted entry pairs the chunk payload
with the number of notifications transmitted for it.  Fuel convention as in
`saadc_ble_work_loop`. -/
def saadc_ble_work_tx_loop (css : ℕ → ConnState) (buf : ℕ → ℤ) (len : ℕ) :
    ℕ → ℕ → ℕ → List (List ℕ × ℕ)
  | _, _, 0 => []
  | idx, k, fuel + 1 =>
    if idx < len then
      (chunkPayload buf idx (min (len - idx) SAMPLES_PER_NOTIFY),
        ble_send_adc_chunk (css k)
          (chunkPayload buf idx (min (len - idx) SAMPLES_PER_NOTIFY))) ::
        saadc_ble_work_tx_loop css buf len
          (idx + min (len - idx) SAMPLES_PER_NOTIFY) (k + 1) fuel
    else []

/-- One full run of the deferred work handler including its sends. -/
def saadc_ble_work_tx (css : ℕ → ConnState) (buf : ℕ → ℤ) (len : ℕ) :
    List (List ℕ × ℕ) :=
  saadc_ble_work_tx_loop css buf len 0 0 len

theorem tx_loop_fst (css : ℕ → ConnState) (buf : ℕ → ℤ) (len : ℕ) :
    ∀ fuel idx k,
      (saadc_ble_work_tx_loop css buf len idx k fuel).map Prod.fst =
        saadc_ble_work_loop buf len idx fuel := by
  intro fuel
  induction fuel with
  | zero =>
    intro idx k
    rfl
  | succ n ih =>
    intro idx k
    simp only [saadc_ble_work_tx_loop, saadc_ble_work_loop]
    by_cases hlt : idx < len
    · rw [if_pos hlt, if_pos hlt, List.map_cons, ih]
    · rw [if_neg hlt, if_neg hlt]
      rfl

theorem tx_loop_snd_zero (css : ℕ → ConnState) (buf : ℕ → ℤ) (len : ℕ) :
    ∀ fuel idx k j,
      ((css (k + j)).ble_connected && (css (k + j)).notify_enabled) = false →
      ((saadc_ble_work_tx_loop css buf len idx k fuel).getD j ([], 0)).2 = 0 := by
  intro fuel
  induction fuel with
  | zero =>
    intro idx k j hc
    rfl
  | succ n ih =>
    intro idx k j hc
    simp only [saadc_ble_work_tx_loop]
    by_cases hlt : idx < len
    · rw [if_pos hlt]
      cases j with
      | zero =>
        rw [List.getD_cons_zero]
        simp only [ble_send_adc_chunk]
        rw [if_pos]
        rcases Bool.and_eq_false_iff.mp (by simpa using hc) with h | h <;>
          simp [h]
      | succ m =>
        rw [List.getD_cons_succ]
        exact ih _ (k + 1) m (by rw [show k + 1 + m = k + (m + 1) from by omega]; exact hc)
    · rw [if_neg hlt]
      rfl

/-- C3: if at the time chunk `k` is sent the connection state is not
(connected ∧ subscribed), then `ble_send_adc_chunk` transmits zero
notifications for that chunk (for any payload) and, being `void`, surfaces no
error; the transport loop still walks every chunk in order (the emitted
payload sequence equals the plain handler's, independent of connection
state); and a subsequent DONE event is staged and processed normally
(the stage sets the clamped length, snapshots the new block, and submits the
deferred task). -/
theorem C3_backpressure (css : ℕ → ConnState) (buf : ℕ → ℤ) (len k : ℕ)
    (hk : ((css k).ble_connected && (css k).notify_enabled) = false) :
    ((saadc_ble_work_tx css buf len).getD k ([], 0)).2 = 0 ∧
    (saadc_ble_work_tx css buf len).map Prod.fst = saadc_ble_work_handler buf len ∧
    (∀ p, ble_send_adc_chunk (css k) p = 0) ∧
    (∀ s b n, (stage s b n).1.len = min n SAADC_BUFFER_SIZE ∧
      slotView (stage s b n).1 = (List.range (min n SAADC_BUFFER_SIZE)).map b ∧
      (stage s b n).2 = true) := by
  refine ⟨?_, tx_loop_fst css buf len len 0 0, ?_, ?_⟩
  · exact tx_loop_snd_zero css buf len len 0 0 k (by simpa using hk)
  · intro p
    simp only [ble_send_adc_chunk]
    rw [if_pos]
    rcases Bool.and_eq_false_iff.mp hk with h | h <;> simp [h]
  · intro s b n
    exact ⟨stage_len s b n, stage_view s b n, stage_submits s b n⟩

/-- Witness for C3: disconnected and unsubscribed state, block `buf i = i`,
`L = 45`, chunk `k = 0`. -/
theorem C3_backpressure_witness :
    ((ConnState.mk false false).ble_connected &&
      (ConnState.mk false false).notify_enabled) = false ∧
    (((saadc_ble_work_tx (fun _ => ConnState.mk false false) (fun i => (i : ℤ)) 45).getD
        0 ([], 0)).2 = 0 ∧
      (saadc_ble_work_tx (fun _ => ConnState.mk false false) (fun i => (i : ℤ)) 45).map
          Prod.fst = saadc_ble_work_handler (fun i => (i : ℤ)) 45 ∧
      (∀ p, ble_send_adc_chunk ((fun _ => ConnState.mk false false) 0) p = 0) ∧
      (∀ s b n, (stage s b n).1.len = min n SAADC_BUFFER_SIZE ∧
        slotView (stage s b n).1 = (List.range (min n SAADC_BUFFER_SIZE)).map b ∧
        (stage s b n).2 = true)) :=
  ⟨by decide,
    C3_backpressure (fun _ => ConnState.mk false false) (fun i => (i : ℤ)) 45 0 (by decide)⟩

/-! ## Double-buffer round-robin (adc.c lines 93-97, 138-147, 246-256)

`configure_saadc` queues `saadc_sample_buffer[0]` and then
`saadc_sample_buffer[1]` with `nrfx_saadc_buffer_set`, with
`saadc_current_buffer = 0`.  Each `NRFX_SAADC_EVT_BUF_REQ` queues
`saadc_sample_buffer[(saadc_current_buffer++) % 2]`, and each
`NRFX_SAADC_EVT_DONE` completes the oldest queued buffer (the converter fills
the buffers it was handed in FIFO order). -/

/-- Driver-visible buffer bookkeeping: the FIFO of queued buffer indices
(front = the buffer being filled) and the `saadc_current_buffer` counter. -/
structure SaadcBufs where
  queue : List ℕ
  counter : ℕ
deriving DecidableEq

/-- State after `configure_saadc`: buffers 0 and 1 queued, counter 0. -/
def configure_saadc_bufs : SaadcBufs := ⟨[0, 1], 0⟩

/-- `NRFX_SAADC_EVT_BUF_REQ` handling:
`nrfx_saadc_buffer_set(saadc_sample_buffer[(saadc_current_buffer++) % 2], …)`. -/
def saadc_buf_req (s : SaadcBufs) : SaadcBufs :=
  ⟨s.queue ++ [s.counter % 2], s.counter + 1⟩

/-- `NRFX_SAADC_EVT_DONE`: the converter reports completion of the oldest
queued buffer and releases it. -/
def saadc_done (s : SaadcBufs) : ℕ × SaadcBufs :=
  (s.queue.headD 0, ⟨s.queue.tail, s.counter⟩)

/-- One converter cycle: a BUFFER_REQUEST followed by its DONE. -/
def saadc_cycle (s : SaadcBufs) : ℕ × SaadcBufs :=
  saadc_done (saadc_buf_req s)

/-- Buffer indices reported at the DONE events of `K` consecutive cycles. -/
def saadc_run_reported : ℕ → SaadcBufs → List ℕ
  | 0, _ => []
  | K + 1, s => (saadc_cycle s).1 :: saadc_run_reported K (saadc_cycle s).2

/-- Buffer indices assigned by the BUF_REQ events of `K` consecutive cycles
(the argument of `nrfx_saadc_buffer_set` in cycle order). -/
def saadc_run_assigned : ℕ → SaadcBufs → List ℕ
  | 0, _ => []
  | K + 1, s => s.counter % 2 :: saadc_run_assigned K (saadc_cycle s).2

example : saadc_run_reported 5 configure_saadc_bufs = [0, 1, 0, 1, 0] := by decide

example : saadc_run_assigned 5 configure_saadc_bufs = [0, 1, 0, 1, 0] := by decide

theorem saadc_run_reported_getD (K : ℕ) :
    ∀ j k, k < K →
      (saadc_run_reported K ⟨[j % 2, (j + 1) % 2], j⟩).getD k 2 = (j + k) % 2 := by
  induction K with
  | zero =>
    intro j k hk
    omega
  | succ n ih =>
    intro j k hk
    have hstep : saadc_cycle ⟨[j % 2, (j + 1) % 2], j⟩ =
        (j % 2, ⟨[(j + 1) % 2, (j + 1 + 1) % 2], j + 1⟩) := by
      simp only [saadc_cycle, saadc_buf_req, saadc_done]
      have : (j + 1 + 1) % 2 = j % 2 := by omega
      simp [this]
    cases k with
    | zero =>
      simp only [saadc_run_reported, hstep, List.getD_cons_zero]
      omega
    | succ m =>
      simp only [saadc_run_reported, hstep, List.getD_cons_succ]
      rw [ih (j + 1) m (by omega)]
      congr 1
      omega

theorem saadc_run_assigned_getD (K : ℕ) :
    ∀ j k, k < K →
      (saadc_run_assigned K ⟨[j % 2, (j + 1) % 2], j⟩).getD k 2 = (j + k) % 2 := by
  induction K with
  | zero =>
    intro j k hk
    omega
  | succ n ih =>
    intro j k hk
    have hstep : saadc_cycle ⟨[j % 2, (j + 1) % 2], j⟩ =
        (j % 2, ⟨[(j + 1) % 2, (j + 1 + 1) % 2], j + 1⟩) := by
      simp only [saadc_cycle, saadc_buf_req, saadc_done]
      have : (j + 1 + 1) % 2 = j % 2 := by omega
      simp [this]
    cases k with
    | zero =>
      simp only [saadc_run_assigned, hstep, List.getD_cons_zero]
      omega
    | succ m =>
      simp only [saadc_run_assigned, hstep, List.getD_cons_succ]
      rw [ih (j + 1) m (by omega)]
      congr 1
      omega

/-- C4: over any `K` consecutive converter cycles from the configuration
state, the buffer assigned at the `k`-th BUFFER_REQUEST and the buffer
completed at the `k`-th DONE are both buffer `k mod 2` — round-robin
`0,1,0,1,…` given the two initial buffer assignments of `configure_saadc`. -/
theorem C4_round_robin (K k : ℕ) (hk : k < K) :
    (saadc_run_reported K configure_saadc_bufs).getD k 2 = k % 2 ∧
    (saadc_run_assigned K configure_saadc_bufs).getD k 2 = k % 2 := by
  have hcfg : configure_saadc_bufs = (⟨[0 % 2, (0 + 1) % 2], 0⟩ : SaadcBufs) := by
    decide
  rw [hcfg]
  have h1 := saadc_run_reported_getD K 0 k hk
  have h2 := saadc_run_assigned_getD K 0 k hk
  simp only [Nat.zero_add] at h1 h2
  exact ⟨h1, h2⟩

/-- Witness for C4: the fourth cycle (`k = 3`) of a four-cycle run completes
buffer `3 mod 2 = 1`. -/
theorem C4_round_robin_witness :
    3 < 4 ∧
    ((saadc_run_reported 4 configure_saadc_bufs).getD 3 2 = 3 % 2 ∧
      (saadc_run_assigned 4 configure_saadc_bufs).getD 3 2 = 3 % 2) :=
  ⟨by decide, C4_round_robin 4 3 (by decide)⟩

/-! ## Command & phase gate (main.c lines 52-133, bluetooth.c lines 41-42,
172-182, 282-289)

Four flags: `on_recieved` / `start_received` in main.c (tested by the wait
loops — these are the observers the gate polls) and `on_received` /
`start_received` in bluetooth.c (set by the wireless write callback, read via
`ble_on_received()` / `ble_start_received()`).

The wait-loop bodies are plain assignments:

    while (!start_received) { start_received = ble_start_received(); k_msleep(10); }

so a poll iteration overwrites the main-side flag with the wireless flag —
it does not OR them together. -/

/-- The four command flags. -/
structure GateState where
  on_main : Bool
  start_main : Bool
  on_ble : Bool
  start_ble : Bool
deriving DecidableEq

/-- An atomic step of one of the three contexts that touch the flags. -/
inductive GateAct where
  /-- `uart_cb` parses a full `ON\r` line: `on_recieved = true`. -/
  | serialOn
  /-- `uart_cb` parses a full `START\r` line: `start_received = true`. -/
  | serialStart
  /-- `write_custom_value` receives `ON`: `on_received = true`. -/
  | bleOn
  /-- `write_custom_value` receives `START`: `start_received = true`. -/
  | bleStart
  /-- one body iteration of `wait_for_on_command`:
  `on_recieved = ble_on_received()`. -/
  | pollOn
  /-- one body iteration of `wait_for_start_command`:
  `start_received = ble_start_received()`. -/
  | pollStart
deriving DecidableEq

def gateStep (s : GateState) : GateAct → GateState
  | GateAct.serialOn => { s with on_main := true }
  | GateAct.serialStart => { s with start_main := true }
  | GateAct.bleOn => { s with on_ble := true }
  | GateAct.bleStart => { s with start_ble := true }
  | GateAct.pollOn => { s with on_main := s.on_ble }
  | GateAct.pollStart => { s with start_main := s.start_ble }

/-- An interleaving of serial-callback, wireless-callback and wait-loop
steps, executed in order. -/
def gateRun (s : GateState) (acts : List GateAct) : GateState :=
  acts.foldl gateStep s

/-- Process start: all four flags are statically initialised to `false`. -/
def gateInit : GateState := ⟨false, false, false, false⟩

/-- Counterexample to C5 as stated: after `ON` is observed on the serial
channel the "power requested" observer (`on_recieved`, the flag the wait loop
polls) is true, but one subsequent poll-loop iteration — which the claim's
"every interleaving" includes — overwrites it with the still-false wireless
flag, so it does not remain true for the rest of the process lifetime.  The
same dynamics (and hence the same failure) apply to `START`. -/
theorem C5_counterexample :
    (gateRun gateInit [GateAct.serialOn]).on_main = true ∧
    (gateRun gateInit [GateAct.serialOn, GateAct.pollOn]).on_main = false ∧
    (gateRun gateInit [GateAct.serialStart]).start_main = true ∧
    (gateRun gateInit [GateAct.serialStart, GateAct.pollStart]).start_main = false := by
  decide

/-- Monotonicity facts that do hold: once the wireless flags are set they are
permanently true, and from any state in which they are set the main-side
observers can never fall back to false (every further step preserves them). -/
def C5AmendedProp (s : GateState) (acts : List GateAct) : Prop :=
  (gateRun s acts).on_ble = true ∧
  (gateRun s acts).start_ble = true ∧
  (s.on_main = true → (gateRun s acts).on_main = true) ∧
  (s.start_main = true → (gateRun s acts).start_main = true) ∧
  (∀ t : GateState, (gateStep t GateAct.bleOn).on_ble = true ∧
    (gateStep t GateAct.bleStart).start_ble = true)

/-- C5 (amended): an `ON`/`START` observed on the wireless channel sets the
wireless flag permanently: under every further interleaving it stays true,
and both main-side observers are monotone (they can only move false → true)
from that point on.  A command observed only on the serial channel is not
permanent: the poll loop can overwrite the observer with the still-false
wireless flag (see the counterexample). -/
theorem C5_gate_monotone (s : GateState) (acts : List GateAct)
    (hOn : s.on_ble = true) (hSt : s.start_ble = true) :
    C5AmendedProp s acts := by
  unfold C5AmendedProp
  have key : ∀ l : List GateAct, ∀ t : GateState, t.on_ble = true → t.start_ble = true →
      (gateRun t l).on_ble = true ∧ (gateRun t l).start_ble = true ∧
      (t.on_main = true → (gateRun t l).on_main = true) ∧
      (t.start_main = true → (gateRun t l).start_main = true) := by
    intro l
    induction l with
    | nil =>
      intro t h1 h2
      exact ⟨h1, h2, fun h => h, fun h => h⟩
    | cons a rest ih =>
      intro t h1 h2
      have hstep : (gateStep t a).on_ble = true ∧ (gateStep t a).start_ble = true ∧
          (t.on_main = true → (gateStep t a).on_main = true) ∧
          (t.start_main = true → (gateStep t a).start_main = true) := by
        cases a <;> simp [gateStep, h1, h2]
      have := ih (gateStep t a) hstep.1 hstep.2.1
      exact ⟨this.1, this.2.1,
        fun h => this.2.2.1 (hstep.2.2.1 h),
        fun h => this.2.2.2 (hstep.2.2.2 h)⟩
  have hk := key acts s hOn hSt
  refine ⟨hk.1, hk.2.1, hk.2.2.1, hk.2.2.2, ?_⟩
  intro t
  exact ⟨by simp [gateStep], by simp [gateStep]⟩

/-- Witness for the amended C5: from a state with both wireless flags set and
the power observer already true, a poll/serial interleaving keeps everything
monotone. -/
theorem C5_gate_monotone_witness :
    (GateState.mk true false true true).on_ble = true ∧
    (GateState.mk true false true true).start_ble = true ∧
    C5AmendedProp (GateState.mk true false true true)
      [GateAct.pollOn, GateAct.serialStart, GateAct.pollStart] :=
  ⟨by decide, by decide,
    C5_gate_monotone (GateState.mk true false true true)
      [GateAct.pollOn, GateAct.serialStart, GateAct.pollStart] (by decide) (by decide)⟩

/-! ## Wireless command dispatcher (bluetooth.c lines 62-189)

`write_custom_value` copies the written bytes into the static 20-byte
`write_buffer`, null-terminates it, and then walks an if/else-if chain of
prefix matches.  We model the post-copy buffer content as a `List Char`
(indexed through `bAt`, with the 0 byte for indices beyond the list, matching
the zero-initialised static array), the collaborator calls as a list of
`BleEffect` values, and the return value as `Option ℕ`: `some len` for every
branch that executes `return len`, and `none` when control falls off the end
of the non-void function (the chain has no final `else` and no trailing
`return`).

`atoi` / `atof` are modelled over exact integers / rationals for the decimal
grammar the command set uses (optional spaces, optional sign, digits,
optional fraction; the firmware's commands use no exponents).  The C code
compares `double`s; values such as `5.0` and `-1.0` and the bounds used in
the guards are far from the representation granularity, so the rational
model decides the same branches. -/

/-- Read `write_buffer[i]`; indices beyond the modelled content read the zero
byte (the array is static and null-terminated at the write length). -/
def bAt (l : List Char) (i : ℕ) : Char := l.getD i (Char.ofNat 0)

/-- Value of a maximal leading digit run (the digit loop of `atoi`/`atof`). -/
def digitsToNat (ds : List Char) : ℕ :=
  ds.foldl (fun acc c => acc * 10 + (c.toNat - 48)) 0

/-- Leading digit run and the rest. -/
def takeDigits (l : List Char) : List Char × List Char :=
  (l.takeWhile Char.isDigit, l.dropWhile Char.isDigit)

/-- C `atoi`: optional spaces, optional sign, leading digits. -/
def atoiList (l : List Char) : ℤ :=
  match l.dropWhile (· = ' ') with
  | '-' :: rest => -((digitsToNat (rest.takeWhile Char.isDigit) : ℤ))
  | '+' :: rest => (digitsToNat (rest.takeWhile Char.isDigit) : ℤ)
  | other => (digitsToNat (other.takeWhile Char.isDigit) : ℤ)

/-- Fractional part `.d₁d₂…` as an exact rational. -/
def fracToQ (ds : List Char) : ℚ :=
  (digitsToNat ds : ℚ) / ((10 ^ ds.length : ℕ) : ℚ)

/-- C `atof` on the firmware's command grammar: optional spaces, optional
sign, integer digits, optional `.` and fraction digits. -/
def atofList (l : List Char) : ℚ :=
  match l.dropWhile (· = ' ') with
  | '-' :: rest => -(atofMag rest)
  | '+' :: rest => atofMag rest
  | other => atofMag other
where
  /-- Unsigned magnitude: digits, optional dot, fraction digits. -/
  atofMag (l : List Char) : ℚ :=
    (digitsToNat (takeDigits l).1 : ℚ) +
      (match (takeDigits l).2 with
        | '.' :: rest => fracToQ (takeDigits rest).1
        | _ => 0)

example : atoiList ['1', '2', '3'] = 123 := by decide

unseal Rat.add Rat.mul Rat.inv in
example : atofList ['5', '.', '0'] = 5 := by decide

unseal Rat.add Rat.mul Rat.inv in
example : atofList ['-', '1', '.', '0'] = -1 := by decide

unseal Rat.add Rat.mul Rat.inv in
example : atofList ['3', '.', '2', '5'] = 13 / 4 := by decide

/-- One collaborator call made by the write callback (all targets live
outside the three core files: dds.c / gpio.c helpers and the two command
flags). -/
inductive BleEffect where
  | changeDDSVal (v : ℤ)
  | set_dds_amplification (v : ℚ)
  | set_dds_offset (v : ℚ)
  | configure_pga (n setting : ℕ)
  | digipot_wiper_set (channel value : ℤ)
  | set_mux (setting : ℤ)
  | set_signal_chain_offset (v : ℚ)
  | set_signal_chain_amplification (v : ℚ)
  | start_dds (hz : ℕ)
  | dds_sleep
  | power_up
  | power_down
  | set_on_received
  | set_start_received
deriving DecidableEq

/-- The if/else-if chain of `write_custom_value` after the copy into
`write_buffer`: `l` is the buffer content, `len` the GATT write length.
Returns the collaborator calls performed and the C return value
(`some len` from every `return len`; `none` models control reaching the end
of the non-void function with no `return` executed).
`MIN_DDS_AMPLIFICATION`/`MAX_DDS_AMPLIFICATION` live in `dds.h`, which is not
among the sources; the DDSA range guard is abstracted as `ddsAmpOk` (both of
its arms return `some len`, so no claim depends on it). -/
def write_custom_value (ddsAmpOk : ℚ → Bool) (l : List Char) (len : ℕ) :
    List BleEffect × Option ℕ :=
  if bAt l 0 = 'S' ∧ bAt l 1 = 'D' ∧ bAt l 2 = 'D' ∧ bAt l 3 = 'S' ∧ bAt l 4 = ':' then
    ([BleEffect.changeDDSVal (Int.emod (atoiList (l.drop 5)) 65536)], some len)
  else if bAt l 0 = 'D' ∧ bAt l 1 = 'D' ∧ bAt l 2 = 'S' ∧ bAt l 3 = 'A' ∧ bAt l 4 = ':' then
    (if ddsAmpOk (atofList (l.drop 5)) then
      [BleEffect.set_dds_amplification (atofList (l.drop 5))]
    else [], some len)
  else if bAt l 0 = 'D' ∧ bAt l 1 = 'D' ∧ bAt l 2 = 'S' ∧ bAt l 3 = 'O' ∧ bAt l 4 = ':' then
    (if -(33 / 10 : ℚ) ≤ atofList (l.drop 5) ∧ atofList (l.drop 5) ≤ 33 / 10 then
      [BleEffect.set_dds_offset (atofList (l.drop 5))]
    else [], some len)
  else if bAt l 0 = 'P' ∧ bAt l 2 = ':' then
    -- `uint16_t number = write_buffer[1] - '0'` (wraps mod 2^16);
    -- `setting >= 0` is vacuous on uint16_t
    (if 1 ≤ ((bAt l 1).toNat + 65536 - 48) % 65536 ∧
        ((bAt l 1).toNat + 65536 - 48) % 65536 ≤ 2 ∧
        ((atoiList (l.drop 3)).emod 65536).toNat ≤ 7 then
      [BleEffect.configure_pga (((bAt l 1).toNat + 65536 - 48) % 65536)
        (((atoiList (l.drop 3)).emod 65536).toNat)]
    else [], some len)
  else if bAt l 0 = 'D' ∧ bAt l 2 = ':' then
    (if 0 ≤ ((bAt l 1).toNat : ℤ) - 48 ∧ ((bAt l 1).toNat : ℤ) - 48 ≤ 3 ∧
        0 ≤ atoiList (l.drop 3) ∧ atoiList (l.drop 3) ≤ 255 then
      [BleEffect.digipot_wiper_set (((bAt l 1).toNat : ℤ) - 48) (atoiList (l.drop 3))]
    else [], some len)
  else if bAt l 0 = 'M' ∧ bAt l 1 = ':' ∧ '0' ≤ bAt l 2 ∧ bAt l 2 ≤ '7' then
    (if 0 ≤ ((bAt l 2).toNat : ℤ) - 48 ∧ ((bAt l 2).toNat : ℤ) - 48 ≤ 7 then
      [BleEffect.set_mux (((bAt l 2).toNat : ℤ) - 48)]
    else [], some len)
  else if bAt l 0 = 'S' ∧ bAt l 1 = 'C' ∧ bAt l 2 = 'O' ∧ bAt l 3 = ':' then
    (if -(33 / 10 : ℚ) ≤ atofList (l.drop 4) ∧ atofList (l.drop 4) ≤ 33 / 10 then
      [BleEffect.set_signal_chain_offset (atofList (l.drop 4))]
    else [], some len)
  else if bAt l 0 = 'S' ∧ bAt l 1 = 'C' ∧ bAt l 2 = 'A' ∧ bAt l 3 = ':' then
    (if (1 : ℚ) ≤ atofList (l.drop 4) ∧ atofList (l.drop 4) ≤ 7000 then
      [BleEffect.set_signal_chain_amplification (atofList (l.drop 4))]
    else [], some len)
  else if bAt l 0 = 'I' ∧ bAt l 1 = 'D' ∧ bAt l 2 = 'D' ∧ bAt l 3 = 'S' then
    ([BleEffect.start_dds 1000], some len)
  else if bAt l 0 = 'D' ∧ bAt l 1 = 'D' ∧ bAt l 2 = 'S' ∧ bAt l 3 = 'O' ∧
      bAt l 4 = 'F' ∧ bAt l 5 = 'F' then
    ([BleEffect.dds_sleep], some len)
  else if bAt l 0 = 'O' ∧ bAt l 1 = 'N' then
    ([BleEffect.set_on_received, BleEffect.power_up], some len)
  else if bAt l 0 = 'S' ∧ bAt l 1 = 'T' ∧ bAt l 2 = 'A' ∧ bAt l 3 = 'R' ∧
      bAt l 4 = 'T' then
    ([BleEffect.set_start_received], some len)
  else if bAt l 0 = 'O' ∧ bAt l 1 = 'F' ∧ bAt l 2 = 'F' then
    ([BleEffect.power_down], some len)
  else
    ([], none)

example : write_custom_value (fun _ => true) ['O', 'N'] 2 =
    ([BleEffect.set_on_received, BleEffect.power_up], some 2) := by decide

example : write_custom_value (fun _ => true)
    ['M', ':', '4', Char.ofNat 0] 4 = ([BleEffect.set_mux 4], some 4) := by decide

example : write_custom_value (fun _ => true)
    ['S', 'D', 'D', 'S', ':', '2', '0', '0'] 8 =
    ([BleEffect.changeDDSVal 200], some 8) := by decide

/-- C6: for every wireless command whose buffer matches `DDSO:` and whose
payload parses (as `atof` does) to `v`, if `v` is outside `[-3.3, 3.3]` the
handler performs no collaborator call — in particular `set_dds_offset` is not
invoked — and still returns the success result `len`; if `v` is inside the
range, `set_dds_offset v` is the only call and the same `len` is returned. -/
theorem C6_ddso_range (ddsAmpOk : ℚ → Bool) (l : List Char) (len : ℕ) (v : ℚ)
    (hm : bAt l 0 = 'D' ∧ bAt l 1 = 'D' ∧ bAt l 2 = 'S' ∧ bAt l 3 = 'O' ∧ bAt l 4 = ':')
    (hv : atofList (l.drop 5) = v) :
    (¬(-(33 / 10 : ℚ) ≤ v ∧ v ≤ 33 / 10) →
      write_custom_value ddsAmpOk l len = ([], some len)) ∧
    ((-(33 / 10 : ℚ) ≤ v ∧ v ≤ 33 / 10) →
      write_custom_value ddsAmpOk l len = ([BleEffect.set_dds_offset v], some len)) := by
  obtain ⟨h0, h1, h2, h3, h4⟩ := hm
  have hn1 : ¬(bAt l 0 = 'S' ∧ bAt l 1 = 'D' ∧ bAt l 2 = 'D' ∧ bAt l 3 = 'S' ∧
      bAt l 4 = ':') := by
    intro h
    exact absurd (h0.symm.trans h.1) (by decide)
  have hn2 : ¬(bAt l 0 = 'D' ∧ bAt l 1 = 'D' ∧ bAt l 2 = 'S' ∧ bAt l 3 = 'A' ∧
      bAt l 4 = ':') := by
    intro h
    exact absurd (h3.symm.trans h.2.2.2.1) (by decide)
  unfold write_custom_value
  rw [if_neg hn1, if_neg hn2, if_pos ⟨h0, h1, h2, h3, h4⟩, hv]
  constructor
  · intro h
    rw [if_neg h]
  · intro h
    rw [if_pos h]

/-- Buffer content for the out-of-range command `DDSO:5.0`. -/
def ddsoOutCmd : List Char := ['D', 'D', 'S', 'O', ':', '5', '.', '0']

/-- Buffer content for the in-range command `DDSO:-1.0`. -/
def ddsoInCmd : List Char := ['D', 'D', 'S', 'O', ':', '-', '1', '.', '0']

unseal Rat.add Rat.mul Rat.inv in
/-- Witness for C6 at the two commands named by the claim: `DDSO:5.0`
(rejected, no call, returns 8) and `DDSO:-1.0` (offset set to -1,
returns 9). -/
theorem C6_ddso_range_witness :
    ((bAt ddsoOutCmd 0 = 'D' ∧ bAt ddsoOutCmd 1 = 'D' ∧ bAt ddsoOutCmd 2 = 'S' ∧
        bAt ddsoOutCmd 3 = 'O' ∧ bAt ddsoOutCmd 4 = ':') ∧
      atofList (ddsoOutCmd.drop 5) = 5 ∧
      write_custom_value (fun _ => true) ddsoOutCmd 8 = ([], some 8)) ∧
    ((bAt ddsoInCmd 0 = 'D' ∧ bAt ddsoInCmd 1 = 'D' ∧ bAt ddsoInCmd 2 = 'S' ∧
        bAt ddsoInCmd 3 = 'O' ∧ bAt ddsoInCmd 4 = ':') ∧
      atofList (ddsoInCmd.drop 5) = -1 ∧
      write_custom_value (fun _ => true) ddsoInCmd 9 =
        ([BleEffect.set_dds_offset (-1)], some 9)) :=
  ⟨⟨by decide, by decide,
      (C6_ddso_range (fun _ => true) ddsoOutCmd 8 5 (by decide) (by decide)).1
        (by norm_num)⟩,
    ⟨by decide, by decide,
      (C6_ddso_range (fun _ => true) ddsoInCmd 9 (-1) (by decide) (by decide)).2
        (by norm_num)⟩⟩

/-- C7 (code bug): a command buffer matching none of the recognized prefixes
(here `XYZ`) makes no collaborator call, but control falls off the end of the
non-void `write_custom_value` without executing any `return` (modelled as the
`none` result) — the if/else-if chain has no final `else`, so the C function's
return value is undefined instead of the `len` that every recognized command
(e.g. `ON`) returns. -/
theorem C7_unrecognized_fallthrough :
    write_custom_value (fun _ => true) ['X', 'Y', 'Z'] 3 = ([], none) ∧
    write_custom_value (fun _ => true) ['O', 'N'] 2 =
      ([BleEffect.set_on_received, BleEffect.power_up], some 2) := by decide

/-! ## Write-callback buffer stores (bluetooth.c lines 23, 32, 62-68)

The prologue of `write_custom_value` is

    memcpy(write_buffer, buf, len);
    ...
    write_buffer[len] = '\0';

with `static uint8_t write_buffer[RECEIVE_BUFF_SIZE]` and
`RECEIVE_BUFF_SIZE = 20`. -/

/-- bluetooth.c: `#define RECEIVE_BUFF_SIZE 20` -/
def RECEIVE_BUFF_SIZE : ℕ := 20

/-- Indices of `write_buffer` stored by the callback prologue for a write of
length `len`: the `memcpy` writes indices `0 … len-1` and the null
terminator writes index `len`. -/
def write_buffer_stores (len : ℕ) : List ℕ := List.range len ++ [len]

/-- C10 (code bug): for `len = 20` — the channel's maximum command size —
the null-terminator store hits index 20, which is outside the 20-byte
`write_buffer` (valid indices are `0 … 19`); for every length below 20 all
stores are in bounds. -/
theorem C10_terminator_oob :
    (20 ∈ write_buffer_stores 20 ∧ ¬(20 < RECEIVE_BUFF_SIZE)) ∧
    (∀ len ∈ List.range RECEIVE_BUFF_SIZE, ∀ i ∈ write_buffer_stores len,
      i < RECEIVE_BUFF_SIZE) := by decide

/-! ## Timer compare interval (adc.c lines 21-28 and 107-120)

`configure_timer` initialises the timer with
`NRFX_TIMER_DEFAULT_CONFIG(1000000)` (a 1 MHz base clock) and programs
`ticks = nrfx_timer_us_to_ticks(&timer_instance, SAADC_INTERVAL_US)` as the
compare value, where `SAADC_INTERVAL_US = 1000000 / ADC_SAMPLE_RATE_HZ` is C
integer (truncating) division. -/

/-- `nrfx_timer_us_to_ticks` at base frequency `freq_hz`:
`ticks = us · freq / 10⁶` (computed in 64 bits; exact for these operands). -/
def nrfx_timer_us_to_ticks (freq_hz us : ℕ) : ℕ := us * freq_hz / 1000000

/-- adc.c line 111: `NRFX_TIMER_DEFAULT_CONFIG(1000000)` — 1 MHz base. -/
def TIMER_BASE_FREQUENCY_HZ : ℕ := 1000000

/-- The compare value `configure_timer` programs into the timer. -/
def configure_timer_ticks : ℕ :=
  nrfx_timer_us_to_ticks TIMER_BASE_FREQUENCY_HZ SAADC_INTERVAL_US

/-- Counterexample to C8 as stated: at the configured 3000 Hz rate the
programmed compare interval is not the exact quotient 1,000,000 / 3000
microseconds — the exact quotient is 333⅓ µs while the macro's integer
division yields 333. -/
theorem C8_counterexample :
    (configure_timer_ticks : ℚ) ≠ (1000000 : ℚ) / (ADC_SAMPLE_RATE_HZ : ℚ) := by
  have h : configure_timer_ticks = 333 := by decide
  rw [h]
  norm_num [ADC_SAMPLE_RATE_HZ]

/-- C8 (amended): the timer compare interval programmed for the configured
3000 Hz rate is the truncating integer quotient
`⌊1,000,000 / rate⌋ = 333` microseconds (at the 1 MHz timer base, ticks
equal microseconds), not the exact rational quotient. -/
theorem C8_truncated_interval :
    configure_timer_ticks = 333 ∧
    (configure_timer_ticks : ℤ) =
      Int.floor ((1000000 : ℚ) / (ADC_SAMPLE_RATE_HZ : ℚ)) ∧
    SAADC_INTERVAL_US = 333 := by
  have h1 : configure_timer_ticks = 333 := by decide
  have h2 : SAADC_INTERVAL_US = 333 := by decide
  refine ⟨h1, ?_, h2⟩
  rw [h1]
  symm
  rw [Int.floor_eq_iff]
  norm_num [ADC_SAMPLE_RATE_HZ]

end EPG
